import Mathlib

/- Formal model of QePyTorch: the multivariate q-exponential distribution, its
power-q log-density, parameter constraints, conjugate-gradient solves, state
loading, kernel composition and the deep QEP layer stack, together with the
properties the specification asserts about them. -/

namespace QePyTorch

/-! ## Power-q density kernel (spec §4.1)

The density-kernel module itself is not among the provided sources (only
notebooks exercising it are), so the routines below are modelled from the
specification's description of the multivariate q-exponential density. -/

/-- Modelled from the spec: `log_normalizer(n, q, log_det_covariance)` (§4.1) — the log
of the normalizing constant of the n-dimensional multivariate q-exponential density
with power `q`, given the log-determinant of the covariance.  The q-exponential
normalizer multiplies the Gaussian one by `q/2`, so the extra `log (q/2)` term
vanishes at `q = 2`.  The implementation source of this routine is missing from the
provided sources. -/
noncomputable def log_normalizer (n : ℕ) (q logdet : ℝ) : ℝ :=
  Real.log (q / 2) - (n : ℝ) / 2 * Real.log (2 * Real.pi) - logdet / 2

/-- Modelled from the spec: `quadratic_reweight(mahalanobis_sq, n, q)` (§4.1) — given the
squared Mahalanobis distance `r² = (x-μ)ᵀ Σ⁻¹ (x-μ)`, returns the q-exponential
log-density contribution `-0.5 * (r²)^(q/2)` together with the scalar reweighting
factor `(n/2)(q/2 - 1) log r²` relating the q-exponential quadratic form to the
underlying Gaussian quadratic form.  The implementation source of this routine is
missing from the provided sources. -/
noncomputable def quadratic_reweight (r2 : ℝ) (n : ℕ) (q : ℝ) : ℝ :=
  (n : ℝ) / 2 * (q / 2 - 1) * Real.log r2 - r2 ^ (q / 2) / 2

/-- Standard multivariate Gaussian log-density as a function of the dimension, the
log-determinant of the covariance and the squared Mahalanobis distance. -/
noncomputable def gaussian_log_prob_aux (n : ℕ) (logdet r2 : ℝ) : ℝ :=
  -((n : ℝ) / 2 * Real.log (2 * Real.pi)) - logdet / 2 - r2 / 2

/-! ## MultivariateQExponential distribution (spec §4.2) -/

/-- Modelled from the spec: the `MultivariateQExponential` distribution object (§3, §4.2)
holds a mean vector, a covariance operator and the power `q`; the class source is
missing from the provided sources (the notebooks under `src` only construct it). -/
structure MultivariateQExponential (n : ℕ) where
  mean : Fin n → ℝ
  covar : Matrix (Fin n) (Fin n) ℝ
  power : ℝ

/-- Squared Mahalanobis distance of a value under the distribution, computed through a
solve against the covariance operator. -/
noncomputable def mahalanobisSq {n : ℕ} (d : MultivariateQExponential n)
    (v : Fin n → ℝ) : ℝ :=
  Matrix.dotProduct (v - d.mean) (d.covar⁻¹.mulVec (v - d.mean))

/-- Modelled from the spec: `MultivariateQExponential.log_prob(value)` (§4.2) computes
`log_normalizer(...) + quadratic_reweight(mahalanobis_sq(value), n, q)`. -/
noncomputable def MultivariateQExponential.log_prob {n : ℕ}
    (d : MultivariateQExponential n) (v : Fin n → ℝ) : ℝ :=
  log_normalizer n d.power (Real.log d.covar.det)
    + quadratic_reweight (mahalanobisSq d v) n d.power

/-- Standard multivariate Gaussian log-density of a value, for the same mean and
covariance as the given q-exponential distribution. -/
noncomputable def gaussianLogProb {n : ℕ} (d : MultivariateQExponential n)
    (v : Fin n → ℝ) : ℝ :=
  gaussian_log_prob_aux n (Real.log d.covar.det) (mahalanobisSq d v)

/-- C1: for every mean vector and covariance operator, when the power equals 2 the
`MultivariateQExponential.log_prob` of any value equals the standard multivariate
Gaussian log-density of that value exactly (hence a fortiori within any
floating-point tolerance such as 1e-5 relative). -/
theorem log_prob_power_two_eq_gaussian {n : ℕ} (d : MultivariateQExponential n)
    (h : d.power = 2) (v : Fin n → ℝ) :
    d.log_prob v = gaussianLogProb d v := by
  unfold MultivariateQExponential.log_prob gaussianLogProb log_normalizer
    quadratic_reweight gaussian_log_prob_aux
  rw [h]
  norm_num [Real.rpow_one]
  ring

/-- Concrete instantiation of the power-2 reduction on the one-dimensional standard
distribution. -/
theorem log_prob_power_two_eq_gaussian_witness :
    (MultivariateQExponential.mk (fun _ => 0) 1 2 : MultivariateQExponential 1).power = 2 ∧
    (MultivariateQExponential.mk (fun _ => 0) 1 2 : MultivariateQExponential 1).log_prob
        (fun _ => 0)
      = gaussianLogProb
          (MultivariateQExponential.mk (fun _ => 0) 1 2 : MultivariateQExponential 1)
          (fun _ => 0) :=
  ⟨rfl, log_prob_power_two_eq_gaussian _ rfl _⟩

/-! ## Derived distributions and the exact posterior predictive (spec §3, §4.2, §4.3)

The notebook model class (src/unnamed/part_004, `QEPModel`) fixes `power` at
construction and passes it unchanged into every `MultivariateQExponential` it
builds; the library operations deriving new distributions from an existing one
are modelled from the spec since their sources are not provided. -/

/-- Embedding of the notebook model class `QEPModel` (src/unnamed/part_004): it stores
`power` as a fixed attribute together with a mean module and a covariance module, and
`forward` evaluates both at the inputs. -/
structure QEPModel (X : Type) (n : ℕ) where
  power : ℝ
  mean_module : (Fin n → X) → (Fin n → ℝ)
  covar_module : (Fin n → X) → Matrix (Fin n) (Fin n) ℝ

/-- Embedding of `QEPModel.forward` (src/unnamed/part_004): returns
`MultivariateQExponential(mean_x, covar_x, power=self.power)`. -/
def QEPModel.forward {X : Type} {n : ℕ} (m : QEPModel X n) (x : Fin n → X) :
    MultivariateQExponential n :=
  ⟨m.mean_module x, m.covar_module x, m.power⟩

/-- Modelled from the spec: marginalization by index set (§4.2) — a lower-dimensional
`MultivariateQExponential` restricted to a subset of dimensions, with `power`
unchanged.  The library source of this operation is missing from the provided
sources. -/
def marginalize {n m : ℕ} (d : MultivariateQExponential n) (idx : Fin m → Fin n) :
    MultivariateQExponential m :=
  ⟨fun i => d.mean (idx i), d.covar.submatrix idx idx, d.power⟩

/-- Modelled from the spec: a batched `MultivariateQExponential` (§3, "broadcastable
per-batch") — a family of means and covariance operators sharing one `power`. -/
structure BatchMQE (b n : ℕ) where
  mean : Fin b → Fin n → ℝ
  covar : Fin b → Matrix (Fin n) (Fin n) ℝ
  power : ℝ

/-- Modelled from the spec: batch indexing of a batched distribution returns the
selected batch element as a `MultivariateQExponential`. -/
def BatchMQE.getitem {b n : ℕ} (D : BatchMQE b n) (i : Fin b) :
    MultivariateQExponential n :=
  ⟨D.mean i, D.covar i, D.power⟩

/-- Modelled from the spec: conditioning (§4.4 conditioning formula) — the distribution
of the `keep` coordinates given observed values `y` of the `obs` coordinates, through
the Schur-complement formula, with `power` unchanged. -/
noncomputable def condition {n k m : ℕ} (d : MultivariateQExponential n)
    (obs : Fin k → Fin n) (keep : Fin m → Fin n) (y : Fin k → ℝ) :
    MultivariateQExponential m :=
  let S12 := d.covar.submatrix keep obs
  let S22 := d.covar.submatrix obs obs
  ⟨(fun i => d.mean (keep i)) + S12.mulVec (S22⁻¹.mulVec (y - fun j => d.mean (obs j))),
   d.covar.submatrix keep keep - S12 * S22⁻¹ * d.covar.submatrix obs keep,
   d.power⟩

/-- Modelled from the spec: the exact posterior predictive distribution produced at
evaluation time (§4.3) — conditions the joint prior over training and test points,
with observation noise added, on the training targets. -/
noncomputable def posteriorPredictive {n k m : ℕ} (prior : MultivariateQExponential n)
    (noise : ℝ) (obs : Fin k → Fin n) (keep : Fin m → Fin n) (y : Fin k → ℝ) :
    MultivariateQExponential m :=
  condition ⟨prior.mean, prior.covar + noise • (1 : Matrix (Fin n) (Fin n) ℝ), prior.power⟩
    obs keep y

/-- C2: the `power` fixed at model construction is propagated unchanged through every
derived distribution — the model's forward output, marginals, batch indexing,
conditionals, and the exact posterior predictive distribution produced at evaluation
time; no operation alters `power`. -/
theorem power_propagated_unchanged {X : Type} {n b k m : ℕ} (mo : QEPModel X n)
    (x : Fin n → X) (d : MultivariateQExponential n) (idx : Fin m → Fin n)
    (D : BatchMQE b n) (i : Fin b) (obs : Fin k → Fin n) (keep : Fin m → Fin n)
    (y : Fin k → ℝ) (noise : ℝ) :
    (mo.forward x).power = mo.power ∧
    (marginalize d idx).power = d.power ∧
    (D.getitem i).power = D.power ∧
    (condition d obs keep y).power = d.power ∧
    (posteriorPredictive (mo.forward x) noise obs keep y).power = mo.power :=
  ⟨rfl, rfl, rfl, rfl, rfl⟩

/-! ## Variational ELBO and its KL term (spec §4.4)

The `VariationalELBO` source is missing from the provided sources (the notebook
src/unnamed/part_004 only constructs and calls it), so the ELBO is modelled from
the spec: expected log-likelihood rescaled for minibatching, minus the KL
divergence between the variational distribution over inducing values and the
power-q prior.  The KL term is represented through its Monte Carlo integrand,
the log-ratio of the variational log-density and the prior log-density. -/

/-- Modelled from the spec: the KL integrand against the power-q-consistent prior
density of §4.1–§4.2 — variational log-density value minus the q-exponential prior
log-density at the same point. -/
noncomputable def klIntegrandQ (n : ℕ) (q lv logdet r2 : ℝ) : ℝ :=
  lv - (log_normalizer n q logdet + quadratic_reweight r2 n q)

/-- The Gaussian KL formula integrand — variational log-density value minus the
Gaussian prior log-density at the same point. -/
noncomputable def klIntegrandGauss (n : ℕ) (lv logdet r2 : ℝ) : ℝ :=
  lv - gaussian_log_prob_aux n logdet r2

/-- Modelled from the spec: the KL term of the ELBO, computed with the
power-q-consistent prior density, as the average of `klIntegrandQ` over the sample
points (each sample records the variational log-density value, the prior covariance
log-determinant and the squared Mahalanobis distance at that point). -/
noncomputable def elboKLTerm (n : ℕ) (q : ℝ) (samples : List (ℝ × ℝ × ℝ)) : ℝ :=
  (samples.map fun s => klIntegrandQ n q s.1 s.2.1 s.2.2).sum / (samples.length : ℝ)

/-- Modelled from the spec: `elbo(model_output, targets, num_data)` (§4.4) — expected
log-likelihood rescaled by `num_data / batch_size` to an unbiased full-dataset
estimate, minus the KL term between the variational distribution and the power-q
prior. -/
noncomputable def elbo (likTerm : ℝ) (numData batchSize : ℕ) (n : ℕ) (q : ℝ)
    (samples : List (ℝ × ℝ × ℝ)) : ℝ :=
  (numData : ℝ) / (batchSize : ℝ) * likTerm - elboKLTerm n q samples

/-- C3: whenever `power ≠ 2`, the KL term inside the ELBO is the one computed from the
power-q-consistent prior density, and that term genuinely differs from the Gaussian
KL formula (their integrands disagree, e.g. at unit squared Mahalanobis distance,
where the gap is the nonzero `log (q/2)`). -/
theorem elbo_kl_uses_power_q_density (q : ℝ) (hq : 0 < q) (h2 : q ≠ 2) (n : ℕ)
    (lv logdet likTerm : ℝ) (numData batchSize : ℕ) (samples : List (ℝ × ℝ × ℝ)) :
    elbo likTerm numData batchSize n q samples
        = (numData : ℝ) / (batchSize : ℝ) * likTerm
          - (samples.map fun s => klIntegrandQ n q s.1 s.2.1 s.2.2).sum
            / (samples.length : ℝ) ∧
    klIntegrandQ n q lv logdet 1 ≠ klIntegrandGauss n lv logdet 1 := by
  refine ⟨rfl, ?_⟩
  have hlog : Real.log (q / 2) ≠ 0 := by
    intro h0
    rcases Real.log_eq_zero.mp h0 with h | h | h
    · linarith
    · exact h2 (by linarith)
    · linarith
  unfold klIntegrandQ klIntegrandGauss log_normalizer quadratic_reweight
    gaussian_log_prob_aux
  intro heq
  apply hlog
  simp only [Real.log_one, Real.one_rpow, mul_zero] at heq
  linarith

/-- Concrete instantiation of the KL-term property at power 1 in one dimension. -/
theorem elbo_kl_uses_power_q_density_witness :
    (0 : ℝ) < 1 ∧ (1 : ℝ) ≠ 2 ∧
    (elbo 0 10 2 1 1 [] = (10 : ℝ) / (2 : ℝ) * 0
        - (([] : List (ℝ × ℝ × ℝ)).map fun s => klIntegrandQ 1 1 s.1 s.2.1 s.2.2).sum
          / (([] : List (ℝ × ℝ × ℝ)).length : ℝ) ∧
      klIntegrandQ 1 1 0 0 1 ≠ klIntegrandGauss 1 0 0 1) :=
  ⟨by norm_num, by norm_num,
    elbo_kl_uses_power_q_density 1 (by norm_num) (by norm_num) 1 0 0 0 10 2 []⟩

/-! ## Parameter constraints (spec §6 round-trip; notebook src/unnamed/part_002)

The constraints module source is missing from the provided sources; the
transforms are modelled from the spec and from the notebook's recorded outputs
(src/unnamed/part_002: `Positive` maps raw 0 to 0.6931 = softplus 0 and maps
-1,-2,-3 to 0.3133, 0.1269, 0.0486; the default noise constraint
`GreaterThan(1.000E-04)` maps raw 0 to 0.6932 = softplus 0 + 1e-4). -/

/-- Softplus transform underlying the positivity constraints: `log (1 + exp x)`. -/
noncomputable def softplus (x : ℝ) : ℝ := Real.log (1 + Real.exp x)

/-- Inverse of the softplus transform: `log (exp y - 1)`. -/
noncomputable def softplusInv (y : ℝ) : ℝ := Real.log (Real.exp y - 1)

/-- Logistic sigmoid used by the interval constraint. -/
noncomputable def sigmoid (x : ℝ) : ℝ := (1 + Real.exp (-x))⁻¹

/-- Logit, the inverse of the logistic sigmoid. -/
noncomputable def logit (p : ℝ) : ℝ := Real.log (p / (1 - p))

/-- Modelled from the spec: the registered parameter constraint kinds appearing in the
provided sources (`Positive`, `GreaterThan`, and the bounded `Interval`). -/
inductive Constraint where
  | positive : Constraint
  | greaterThan (lb : ℝ) : Constraint
  | interval (l u : ℝ) : Constraint

/-- Modelled from the spec: `constraint.transform`, mapping a raw parameter value into
the constraint's valid domain. -/
noncomputable def Constraint.transform : Constraint → ℝ → ℝ
  | .positive, x => softplus x
  | .greaterThan lb, x => softplus x + lb
  | .interval l u, x => l + (u - l) * sigmoid x

/-- Modelled from the spec: `constraint.inverse_transform`, mapping a transformed value
back to the raw parameterization. -/
noncomputable def Constraint.inverse_transform : Constraint → ℝ → ℝ
  | .positive, y => softplusInv y
  | .greaterThan lb, y => softplusInv (y - lb)
  | .interval l u, y => logit ((y - l) / (u - l))

/-- Well-formedness of a constraint's parameters (an interval needs a nonempty
interior). -/
def Constraint.valid : Constraint → Prop
  | .positive => True
  | .greaterThan _ => True
  | .interval l u => l < u

theorem softplusInv_softplus (x : ℝ) : softplusInv (softplus x) = x := by
  unfold softplus softplusInv
  rw [Real.exp_log (by positivity), add_sub_cancel_left, Real.log_exp]

theorem logit_sigmoid (x : ℝ) : logit (sigmoid x) = x := by
  unfold logit sigmoid
  have harg : (1 + Real.exp (-x))⁻¹ / (1 - (1 + Real.exp (-x))⁻¹) = Real.exp x := by
    rw [Real.exp_neg]
    have h0 : Real.exp x ≠ 0 := (Real.exp_pos x).ne'
    have h1 : (1 : ℝ) + (Real.exp x)⁻¹ ≠ 0 := by positivity
    field_simp
  rw [harg, Real.log_exp]

/-- C5: for every registered parameter constraint with well-formed parameters and every
raw value `x`, applying the constraint's transform followed by its inverse transform
returns `x` exactly. -/
theorem constraint_roundtrip (c : Constraint) (hc : c.valid) (x : ℝ) :
    c.inverse_transform (c.transform x) = x := by
  cases c with
  | positive => exact softplusInv_softplus x
  | greaterThan lb =>
    show softplusInv (softplus x + lb - lb) = x
    rw [add_sub_cancel_right, softplusInv_softplus]
  | interval l u =>
    have hne : u - l ≠ 0 := sub_ne_zero.mpr hc.ne'
    show logit ((l + (u - l) * sigmoid x - l) / (u - l)) = x
    rw [add_sub_cancel_left, mul_comm, mul_div_assoc, div_self hne, mul_one, logit_sigmoid]

/-- Concrete round trip through the interval constraint on (0, 1) at raw value 0. -/
theorem constraint_roundtrip_witness :
    (Constraint.interval 0 1).valid ∧
    (Constraint.interval 0 1).inverse_transform ((Constraint.interval 0 1).transform 0)
      = 0 :=
  ⟨by norm_num [Constraint.valid],
    constraint_roundtrip (Constraint.interval 0 1) (by norm_num [Constraint.valid]) 0⟩

/-! ## Default observation-noise floor (src/unnamed/part_001, part_002) -/

/-- Default lower bound 1e-4 of the noise constraint registered by
`QExponentialLikelihood` with default arguments, as recorded in the saved state dict
(src/unnamed/part_001, `likelihood.noise_covar.raw_noise_constraint.lower_bound`)
and printed as `GreaterThan(1.000E-04)` (src/unnamed/part_002). -/
noncomputable def defaultNoiseLowerBound : ℝ := 1 / 10000

/-- Modelled from the spec: the transformed observation-noise value exposed by a
default-constructed `QExponentialLikelihood`, obtained from the raw noise parameter
through the registered `GreaterThan(1e-4)` constraint. -/
noncomputable def qexpLikelihoodNoise (raw : ℝ) : ℝ :=
  (Constraint.greaterThan defaultNoiseLowerBound).transform raw

/-- C10: a default-constructed `QExponentialLikelihood` registers a `GreaterThan(1e-4)`
constraint on its raw noise, so the transformed noise it exposes is strictly greater
than 1e-4 for every raw parameter value. -/
theorem default_noise_strictly_above_floor (raw : ℝ) :
    defaultNoiseLowerBound < qexpLikelihoodNoise raw := by
  have hsp : 0 < softplus raw := by
    unfold softplus
    apply Real.log_pos
    have := Real.exp_pos raw
    linarith
  show defaultNoiseLowerBound < softplus raw + defaultNoiseLowerBound
  linarith

/-! ## Conjugate-gradient solves (spec §4.3, §7)

The CG implementation lives in the external linear-operator layer and is not
among the provided sources, so it is modelled from the spec: an iterative solve
bounded by a configured iteration budget that, on budget exhaustion, surfaces a
non-fatal warning flag and returns the best available iterate. -/

/-- Dot product of rational vectors. -/
def dotQ {n : ℕ} (u v : Fin n → ℚ) : ℚ := ∑ i, u i * v i

/-- State of the conjugate-gradient iteration: current iterate, residual and search
direction. -/
structure CGState (n : ℕ) where
  x : Fin n → ℚ
  r : Fin n → ℚ
  p : Fin n → ℚ

/-- Modelled from the spec: one conjugate-gradient update (standard CG recurrences);
a degenerate search direction leaves the state unchanged. -/
def cgStep {n : ℕ} (A : Matrix (Fin n) (Fin n) ℚ) (s : CGState n) : CGState n :=
  let Ap := A.mulVec s.p
  let pAp := dotQ s.p Ap
  if pAp = 0 then s
  else
    let rs := dotQ s.r s.r
    let alpha := rs / pAp
    let r' := s.r - alpha • Ap
    ⟨s.x + alpha • s.p, r', r' + (dotQ r' r' / rs) • s.p⟩

/-- Modelled from the spec: run CG for at most the given iteration budget, stopping
early when the squared residual norm reaches the tolerance. -/
def cgRun {n : ℕ} (A : Matrix (Fin n) (Fin n) ℚ) (tol : ℚ) :
    ℕ → CGState n → CGState n
  | 0, s => s
  | k + 1, s => if dotQ s.r s.r ≤ tol then s else cgRun A tol k (cgStep A s)

/-- Result of a CG solve: the returned iterate together with the non-fatal
convergence-warning flag (there is no failure case — the solve always returns). -/
structure CGResult (n : ℕ) where
  solution : Fin n → ℚ
  warning : Bool

/-- Modelled from the spec: the bounded CG solve — iterate from the zero initial
guess within the budget and return the last iterate, with the warning flag set when
the tolerance was not reached. -/
def linear_cg {n : ℕ} (A : Matrix (Fin n) (Fin n) ℚ) (b : Fin n → ℚ)
    (maxiter : ℕ) (tol : ℚ) : CGResult n :=
  ⟨(cgRun A tol maxiter ⟨0, b, b⟩).x,
   decide (tol < dotQ (cgRun A tol maxiter ⟨0, b, b⟩).r (cgRun A tol maxiter ⟨0, b, b⟩).r)⟩

/-- Squared norm of the true residual of a candidate solution. -/
def residualNormSq {n : ℕ} (A : Matrix (Fin n) (Fin n) ℚ) (b x : Fin n → ℚ) : ℚ :=
  dotQ (b - A.mulVec x) (b - A.mulVec x)

theorem cgStep_residual {n : ℕ} (A : Matrix (Fin n) (Fin n) ℚ) (b : Fin n → ℚ)
    (s : CGState n) (h : s.r = b - A.mulVec s.x) :
    (cgStep A s).r = b - A.mulVec (cgStep A s).x := by
  unfold cgStep
  by_cases hp : dotQ s.p (A.mulVec s.p) = 0
  · simpa [hp] using h
  · simp only [hp, if_neg, if_false]
    rw [h, Matrix.mulVec_add, Matrix.mulVec_smul, sub_sub]

theorem cgRun_residual {n : ℕ} (A : Matrix (Fin n) (Fin n) ℚ) (tol : ℚ)
    (b : Fin n → ℚ) :
    ∀ (k : ℕ) (s : CGState n), s.r = b - A.mulVec s.x →
      (cgRun A tol k s).r = b - A.mulVec (cgRun A tol k s).x
  | 0, _, h => h
  | k + 1, s, h => by
    unfold cgRun
    split
    · exact h
    · exact cgRun_residual A tol b k _ (cgStep_residual A b s h)

/-- C6: the CG solve is total — on every input it returns a result rather than
raising — and its non-fatal warning flag is set exactly when the returned (best
available) iterate's true residual still exceeds the tolerance, i.e. when the solve
failed to converge within the configured iteration budget. -/
theorem linear_cg_warning_best_effort {n : ℕ} (A : Matrix (Fin n) (Fin n) ℚ)
    (b : Fin n → ℚ) (maxiter : ℕ) (tol : ℚ) :
    (linear_cg A b maxiter tol).solution = (cgRun A tol maxiter ⟨0, b, b⟩).x ∧
    ((linear_cg A b maxiter tol).warning = true ↔
      tol < residualNormSq A b (linear_cg A b maxiter tol).solution) := by
  have hres : (cgRun A tol maxiter ⟨0, b, b⟩).r
      = b - A.mulVec (cgRun A tol maxiter ⟨0, b, b⟩).x :=
    cgRun_residual A tol b maxiter ⟨0, b, b⟩ (by simp [Matrix.mulVec_zero])
  refine ⟨rfl, ?_⟩
  show decide (tol < dotQ (cgRun A tol maxiter ⟨0, b, b⟩).r
      (cgRun A tol maxiter ⟨0, b, b⟩).r) = true ↔ _
  rw [decide_eq_true_iff, residualNormSq]
  show _ ↔ tol < dotQ (b - A.mulVec (cgRun A tol maxiter ⟨0, b, b⟩).x)
      (b - A.mulVec (cgRun A tol maxiter ⟨0, b, b⟩).x)
  rw [← hres]

/-! ## Persisted state loading (spec §6; src/unnamed/part_001)

The notebook saves `model.state_dict()` and reloads it with
`model.load_state_dict(state_dict)`; the loader implementation is inherited
library code absent from the provided sources and is modelled from the spec:
loading requires an exact key-set match against the target registry and fails
loudly, reporting the missing and unexpected keys, on any mismatch. -/

/-- Keys of a flat name-to-value mapping. -/
def keysOf (l : List (String × ℚ)) : List String := l.map Prod.fst

/-- Modelled from the spec: strict `load_state_dict` — succeed, updating every
registry entry with its saved value, only when the saved key set matches the
registry's key set exactly; otherwise fail loudly with the lists of missing and
unexpected keys. -/
def load_state_dict (registry saved : List (String × ℚ)) :
    Except (List String × List String) (List (String × ℚ)) :=
  let missing := (keysOf registry).filter fun k => !(keysOf saved).contains k
  let unexpected := (keysOf saved).filter fun k => !(keysOf registry).contains k
  if missing.isEmpty && unexpected.isEmpty then
    Except.ok (registry.map fun kv =>
      (kv.1, (((saved.find? fun p => p.1 == kv.1).map Prod.snd).getD kv.2)))
  else Except.error (missing, unexpected)

/-- C7: loading persisted state succeeds exactly when the saved key set matches the
target registry's key set; any partial or renamed key set makes the loader return a
loud error (naming the missing and unexpected keys) instead of silently skipping
entries. -/
theorem load_state_dict_exact_match (registry saved : List (String × ℚ)) :
    (∃ out, load_state_dict registry saved = Except.ok out) ↔
      ∀ k, k ∈ keysOf registry ↔ k ∈ keysOf saved := by
  unfold load_state_dict
  by_cases hb : (((keysOf registry).filter fun k => !(keysOf saved).contains k).isEmpty &&
      ((keysOf saved).filter fun k => !(keysOf registry).contains k).isEmpty) = true
  · simp only [hb, if_true]
    constructor
    · intro _ k
      have hb' := hb
      rw [Bool.and_eq_true] at hb'
      rcases hb' with ⟨h1, h2⟩
      rw [List.isEmpty_iff, List.filter_eq_nil_iff] at h1 h2
      constructor
      · intro hk
        have := h1 k hk
        simpa using this
      · intro hk
        have := h2 k hk
        simpa using this
    · intro _
      exact ⟨_, rfl⟩
  · simp only [hb, if_false]
    constructor
    · intro ⟨out, hout⟩
      exact absurd hout (by simp)
    · intro hk
      exfalso
      apply hb
      rw [Bool.and_eq_true, List.isEmpty_iff, List.isEmpty_iff,
        List.filter_eq_nil_iff, List.filter_eq_nil_iff]
      constructor
      · intro k hkm
        simp [(hk k).mp hkm]
      · intro k hks
        simp [(hk k).mpr hks]

/-! ## Deep QEP layer stack: skip-connection input assembly (src/unnamed/part_005)

`ToyDeepQEPHiddenLayer.__call__` is defined in the provided notebook source: when
additional inputs are given, each is expanded with
`inp.unsqueeze(0).expand(num_likelihood_samples.value(), *inp.shape)` across the
Monte Carlo sample dimension and concatenated with the previous layer's sampled
output via `torch.cat([x] + processed_inputs, dim=-1)`, and the layer is invoked
with `are_samples=bool(len(other_inputs))`. -/

/-- Monte Carlo sample batch: `S` samples of a set of `n` points, each carried as a
feature row vector; the sample index is the leading batch dimension. -/
def SampleBatch (S n : ℕ) : Type := Fin S → Fin n → List ℚ

/-- Embedding of `inp.unsqueeze(0).expand(S, *inp.shape)`
(src/unnamed/part_005): broadcast an additional input across the sample
dimension of size `S` (the `num_likelihood_samples` setting). -/
def unsqueezeExpand (S n : ℕ) (t : Fin n → List ℚ) : SampleBatch S n := fun _ => t

/-- Embedding of `torch.cat(-, dim=-1)` on two sample batches: concatenation along
the last (feature) dimension. -/
def catLastDim {S n : ℕ} (x y : SampleBatch S n) : SampleBatch S n :=
  fun s i => x s i ++ y s i

/-- Embedding of the input assembly in `ToyDeepQEPHiddenLayer.__call__`
(src/unnamed/part_005): the processed additional inputs are concatenated, in order,
after the previous layer's sampled output, and the `are_samples` flag passed to the
underlying call is set exactly when additional inputs were given. -/
def hiddenLayerCallInput {S n : ℕ} (x : SampleBatch S n)
    (others : List (Fin n → List ℚ)) : SampleBatch S n × Bool :=
  ((others.map (unsqueezeExpand S n)).foldl catLastDim x, !others.isEmpty)

theorem foldl_catLastDim {S n : ℕ} (s : Fin S) (i : Fin n) :
    ∀ (others : List (Fin n → List ℚ)) (x : SampleBatch S n),
      ((others.map (unsqueezeExpand S n)).foldl catLastDim x) s i
        = x s i ++ (others.map fun t => t i).flatten
  | [], x => by simp
  | t :: ts, x => by
    rw [List.map_cons, List.foldl_cons,
      foldl_catLastDim s i ts (catLastDim x (unsqueezeExpand S n t)),
      List.map_cons, List.flatten_cons]
    show (x s i ++ t i) ++ _ = _
    rw [List.append_assoc]

/-- C8: in the deep QEP layer stack, each additional (skip-connection) input is
broadcast across the Monte Carlo sample dimension of size `num_likelihood_samples`
and concatenated with the previous layer's sampled output along the last (feature)
dimension — sample `s` of the assembled input at point `i` is the sample's features
followed by every additional input's features at that point — so all `S` samples of
layer `k` are fed as a batched input to layer `k+1`, flagged as samples. -/
theorem deep_layer_skip_connection {S n : ℕ} (x : SampleBatch S n)
    (others : List (Fin n → List ℚ)) (s : Fin S) (i : Fin n) :
    (hiddenLayerCallInput x others).1 s i = x s i ++ (others.map fun t => t i).flatten ∧
    (hiddenLayerCallInput x others).2 = !others.isEmpty :=
  ⟨foldl_catLastDim s i others x, rfl⟩

/-! ## Kernel composition algebra (spec §6, §9; src/unnamed/part_003)

The notebook builds `spectral_mixture_kernel = (rbf_1 * cos_1) + (rbf_2 * cos_2)`
and states that evaluating the composite object is equivalent to combining the
component kernels' outputs; the composite kernel classes themselves are library
code absent from the provided sources, modelled from the spec as a lazy
expression tree whose composite nodes combine their children's evaluated
covariance outputs. -/

/-- Modelled from the spec: the kernel composition algebra — a kernel is a base
covariance function or a lazy sum, product, or scaling of kernels. -/
inductive Kernel (α : Type) (n : ℕ) where
  | base (f : (Fin n → α) → Matrix (Fin n) (Fin n) ℚ) : Kernel α n
  | add (k₁ k₂ : Kernel α n) : Kernel α n
  | mul (k₁ k₂ : Kernel α n) : Kernel α n
  | scale (c : ℚ) (k : Kernel α n) : Kernel α n

/-- Modelled from the spec: evaluating a composite kernel at an input batch combines
the children's evaluated covariances — sums add matrices, products multiply them
entrywise (Hadamard), scalings rescale them. -/
def Kernel.evaluate {α : Type} {n : ℕ} : Kernel α n → (Fin n → α) → Matrix (Fin n) (Fin n) ℚ
  | base f, X => f X
  | add k₁ k₂, X => k₁.evaluate X + k₂.evaluate X
  | mul k₁ k₂, X => Matrix.hadamard (k₁.evaluate X) (k₂.evaluate X)
  | scale c k, X => c • k.evaluate X

/-- C9: kernel composition is a homomorphism under evaluation — the composite kernel
object `(k1 * k2) + (k3 * k4)` evaluated at an input batch `X` yields exactly the
covariance obtained by combining the component kernels' individual outputs,
`k1(X) ⊙ k2(X) + k3(X) ⊙ k4(X)`, entry by entry. -/
theorem kernel_composition_homomorphism {α : Type} {n : ℕ}
    (k1 k2 k3 k4 : Kernel α n) (X : Fin n → α) :
    (Kernel.add (Kernel.mul k1 k2) (Kernel.mul k3 k4)).evaluate X
        = Matrix.hadamard (k1.evaluate X) (k2.evaluate X)
          + Matrix.hadamard (k3.evaluate X) (k4.evaluate X) ∧
    ∀ i j, (Kernel.add (Kernel.mul k1 k2) (Kernel.mul k3 k4)).evaluate X i j
        = k1.evaluate X i j * k2.evaluate X i j
          + k3.evaluate X i j * k4.evaluate X i j :=
  ⟨rfl, fun i j => by
    show (Matrix.hadamard (k1.evaluate X) (k2.evaluate X)
        + Matrix.hadamard (k3.evaluate X) (k4.evaluate X)) i j = _
    simp [Matrix.add_apply, Matrix.hadamard_apply]⟩

end QePyTorch
